import Mathlib

/-
Verification of the range-fetch / ZIP-directory / entry-extraction core of
`burst_extractor.py` (class `S3Zip` and the module-level helper
`calculate_range_parameters`).

Modelling conventions.
* A byte is `Fin 256`; a byte string (`bytes`) is `List (Fin 256)`.
* Python integers are `Int` (arbitrary precision, so no wrap-around); offsets
  and sizes that are structurally non-negative (list positions, configured
  thresholds and chunk sizes) are `Nat`.
* The injected HTTP client (`requests` session) is an abstract function from
  a `Range` header string to the response body, exactly the interface the
  code uses (`self.client.get(self.url, headers=dict(Range=h)).content`).
  A remote object store serving object `obj` is modelled by `sliceIncl obj`:
  the body of a `bytes=s-e` request is the bytes of `obj` at positions
  `s..e` inclusive (clamped at the ends of the object).
* `int(math.ceil(total_size / float(chunk_size)))` is modelled as exact
  ceiling division (for the sizes in play the float quotient is exact
  enough that `math.ceil` agrees with the rational ceiling); a negative or
  zero part count makes `range()` empty, which `Int.toNat` reproduces.
* The external `isal_zlib.decompressobj(wbits).decompress` is an abstract
  parameter `inflate : Int → Bytes → Except PyError Bytes`; the code calls
  it with `wbits = -1 * ZLIB_MAX_WBITS = -15`, which in zlib semantics
  selects raw deflate framing (no zlib/gzip header or trailer).
* Code that raises a Python exception is modelled with `Except PyError`.
  The constructors of `PyError` name both the exceptions the translated
  code can actually raise (`indexError`, `typeError`, `decompressionError`)
  and the error kinds named by the specification2s taxonomy
  (`entryNotFoundError`, `unsupportedCompressionError`, `rangeReadError`),
  so that spec-level claims about the latter can be stated; the translated
  code never produces the spec-taxonomy constructors.
-/

abbrev Byte := Fin 256

abbrev Bytes := List Byte

/-- Bytes of `obj` at positions `off, off+1, ..., off+len-1` (clamped to the
object): the semantic value of a byte-range read. -/
def natSlice (obj : Bytes) (off len : Nat) : Bytes :=
  (obj.drop off).take len

/-- Body served by an ideal byte-range HTTP server for `bytes=s-e`
(inclusive ends, Python-int arguments): the object's bytes at positions
`s..e`, empty when the interval is inverted. -/
def sliceIncl (obj : Bytes) (s e : Int) : Bytes :=
  (obj.drop s.toNat).take (e - s + 1).toNat

/-- Rendering of the f-string `f'bytes={start}-{end}'` used for every
`Range` header in the code. -/
def rangeHeader (s e : Int) : String :=
  "bytes=" ++ toString s ++ "-" ++ toString e

/-- `int(math.ceil(total_size / float(chunk_size)))`, followed by the
clamping that `range()` applies to a non-positive argument.  For
`total_size > 0` this is exact ceiling division. -/
def num_parts (total_size : Int) (chunk_size : Nat) : Nat :=
  ((total_size + chunk_size - 1).ediv chunk_size).toNat

/-- The `(start_range, end_range)` pairs (inclusive ends) produced by the
loop of `calculate_range_parameters`. -/
def calculate_range_intervals (total_size offset : Int) (chunk_size : Nat) :
    List (Int × Int) :=
  let n := num_parts total_size chunk_size
  (List.range n).map fun (part_index : Nat) =>
    let start_range : Int := part_index * chunk_size + offset
    let end_range : Int :=
      if part_index = n - 1 then total_size + offset - 1
      else start_range + chunk_size - 1
    (start_range, end_range)

/-- `calculate_range_parameters(total_size, offset, chunk_size)` from
`burst_extractor.py`: the list of `Range` header strings for one chunked
fetch. -/
def calculate_range_parameters (total_size offset : Int) (chunk_size : Nat) :
    List String :=
  let n := num_parts total_size chunk_size
  (List.range n).map fun (part_index : Nat) =>
    let start_range : Int := part_index * chunk_size + offset
    let end_range : Int :=
      if part_index = n - 1 then total_size + offset - 1
      else start_range + chunk_size - 1
    rangeHeader start_range end_range

/-- `S3Zip.ranged_http_get`: issue one ranged read; the body is whatever the
client returns for that header (`resp.content`), with no validation. -/
def ranged_http_get (client : String → Bytes) (range_header : String) : Bytes :=
  client range_header

/-- `S3Zip.threaded_get(offset, file_size)`: map `ranged_http_get` over the
chunk headers (the executor yields results in input order) and join. -/
def threaded_get (client : String → Bytes) (chunksize : Nat)
    (offset file_size : Int) : Bytes :=
  ((calculate_range_parameters file_size offset chunksize).map
    (ranged_http_get client)).flatten

/-- `S3Zip.get(start, length)`: single ranged read when
`length <= multipart_threshold`, chunked fetch otherwise. -/
def S3Zip_get (client : String → Bytes) (threshold chunksize : Nat)
    (start length : Int) : Bytes :=
  if length ≤ (threshold : Int) then
    ranged_http_get client (rangeHeader start (start + length - 1))
  else
    threaded_get client chunksize start length

/-- The `Range` headers that one `S3Zip.get(start, length)` call issues, in
dispatch order. -/
def get_requests (threshold chunksize : Nat) (start length : Int) :
    List String :=
  if length ≤ (threshold : Int) then
    [rangeHeader start (start + length - 1)]
  else
    calculate_range_parameters length start chunksize

/-- Interval-level semantics of `S3Zip.get`: the same control flow with the
client abstracted to a function of the (start, inclusive-end) pair that
every issued header renders. -/
def getI (read : Int → Int → Bytes) (threshold chunksize : Nat)
    (start length : Int) : Bytes :=
  if length ≤ (threshold : Int) then
    read start (start + length - 1)
  else
    ((calculate_range_intervals length start chunksize).map
      fun p => read p.1 p.2).flatten

/-- `S3Zip.get` run against an ideal remote that serves object `obj`. -/
def objGet (obj : Bytes) (threshold chunksize : Nat) (start length : Int) :
    Bytes :=
  getI (sliceIncl obj) threshold chunksize start length

theorem calculate_range_parameters_eq_map_intervals
    (total_size offset : Int) (chunk_size : Nat) :
    calculate_range_parameters total_size offset chunk_size =
      (calculate_range_intervals total_size offset chunk_size).map
        fun p => rangeHeader p.1 p.2 := by
  unfold calculate_range_parameters calculate_range_intervals
  rw [List.map_map]
  apply List.map_congr_left
  intro i _
  simp only [Function.comp]

theorem S3Zip_get_eq_getI (client : String → Bytes) (threshold chunksize : Nat)
    (start length : Int) :
    S3Zip_get client threshold chunksize start length =
      getI (fun s e => client (rangeHeader s e)) threshold chunksize
        start length := by
  unfold S3Zip_get getI threaded_get ranged_http_get
  split
  · rfl
  · rw [calculate_range_parameters_eq_map_intervals, List.map_map]
    rfl

theorem S3Zip_get_eq_flatten_requests (client : String → Bytes)
    (threshold chunksize : Nat) (start length : Int) :
    S3Zip_get client threshold chunksize start length =
      ((get_requests threshold chunksize start length).map client).flatten := by
  unfold S3Zip_get get_requests threaded_get ranged_http_get
  split
  · simp
  · rfl

/-- The chunk decomposition as (start, size) pairs over `Nat`: full chunks
of size `C` followed by a final remainder chunk.  Auxiliary to relate
`calculate_range_intervals` to a recursive description. -/
def chunksFrom (C start remaining : Nat) : List (Nat × Nat) :=
  if _h : C = 0 ∨ remaining = 0 then []
  else if _hr : remaining ≤ C then [(start, remaining)]
  else (start, C) :: chunksFrom C (start + C) (remaining - C)
termination_by remaining
decreasing_by omega

/-- Cast a (start, size) chunk to the (start, inclusive end) interval it
denotes. -/
def chunkToInterval (q : Nat × Nat) : Int × Int :=
  ((q.1 : Int), (q.1 : Int) + q.2 - 1)

theorem num_parts_ofNat (t C : Nat) (hC : 0 < C) :
    num_parts (t : Int) C = (t + C - 1) / C := by
  unfold num_parts
  rcases Nat.eq_zero_or_pos t with ht | ht
  · subst ht
    have h1 : ((0 : Nat) : Int) + C - 1 = ((C - 1 : Nat) : Int) := by
      push_cast [Nat.cast_sub (by omega : 1 ≤ C)]; ring
    rw [h1]
    have h2 : ((C - 1 : Nat) : Int).ediv (C : Int) = ((C - 1) / C : Nat) := by
      rw [Int.ofNat_ediv]; rfl
    rw [h2, Int.toNat_natCast, Nat.div_eq_of_lt (by omega), Nat.div_eq_of_lt (by omega)]
  · have h1 : (t : Int) + C - 1 = ((t + C - 1 : Nat) : Int) := by
      push_cast [Nat.cast_sub (by omega : 1 ≤ t + C)]; ring
    rw [h1]
    have h2 : ((t + C - 1 : Nat) : Int).ediv (C : Int) = ((t + C - 1) / C : Nat) := by
      rw [Int.ofNat_ediv]; rfl
    rw [h2, Int.toNat_natCast]

/-- Boolean check that a list of (start, inclusive-end) intervals begins at
`s` and is consecutive and non-overlapping: each interval is non-empty,
starts where demanded, and the next interval starts right after its end. -/
def consecChunksB : Int → List (Int × Int) → Bool
  | _, [] => true
  | s, p :: rest =>
    decide (p.1 = s) && decide (p.1 ≤ p.2) && consecChunksB (p.2 + 1) rest


theorem intervals_def (t o : Int) (C : Nat) :
    calculate_range_intervals t o C =
      (List.range (num_parts t C)).map fun (i : Nat) =>
        ((i : Int) * (C : Int) + o,
          if i = num_parts t C - 1 then t + o - 1
          else (i : Int) * (C : Int) + o + (C : Int) - 1) := rfl

theorem intervals_eq_chunksFrom (C : Nat) (hC : 0 < C) :
    ∀ t s : Nat, calculate_range_intervals (t : Int) (s : Int) C =
      (chunksFrom C s t).map chunkToInterval := by
  intro t
  induction t using Nat.strong_induction_on with
  | _ t ih =>
    intro s
    by_cases ht0 : t = 0
    · subst ht0
      have hn : num_parts ((0 : Nat) : Int) C = 0 := by
        rw [num_parts_ofNat _ _ hC]
        exact Nat.div_eq_of_lt (by omega)
      have hc : chunksFrom C s 0 = [] := by
        rw [chunksFrom]; simp
      rw [hc, List.map_nil, intervals_def, hn]
      rfl
    · by_cases htC : t ≤ C
      · have hn : num_parts (t : Int) C = 1 := by
          have e1 : t + C - 1 = (t - 1) + C := by omega
          rw [num_parts_ofNat _ _ hC, e1, Nat.add_div_right _ hC,
            Nat.div_eq_of_lt (by omega)]
        have hc : chunksFrom C s t = [(s, t)] := by
          rw [chunksFrom]
          have h1 : ¬(C = 0 ∨ t = 0) := by omega
          rw [dif_neg h1, dif_pos htC]
        rw [intervals_def, hn, hc]
        have hr1 : List.range 1 = [0] := rfl
        rw [hr1, List.map_cons, List.map_nil, List.map_cons, List.map_nil]
        rw [if_pos rfl]
        simp [chunkToInterval, Prod.ext_iff]
        omega
      · have e1 : t + C - 1 = (t - C + C - 1) + C := by omega
        set n2 := (t - C + C - 1) / C with hn2def
        have hn : num_parts (t : Int) C = n2 + 1 := by
          rw [num_parts_ofNat _ _ hC, e1, Nat.add_div_right _ hC]
        have hn1 : 1 ≤ n2 := by
          rw [hn2def, Nat.one_le_div_iff hC]; omega
        have hm : num_parts ((t - C : Nat) : Int) C = n2 := by
          rw [num_parts_ofNat _ _ hC]
        have hc : chunksFrom C s t = (s, C) :: chunksFrom C (s + C) (t - C) := by
          rw [chunksFrom]
          have h1 : ¬(C = 0 ∨ t = 0) := by omega
          rw [dif_neg h1, dif_neg htC]
        have htail := ih (t - C) (by omega) (s + C)
        rw [intervals_def, hm] at htail
        rw [intervals_def, hn, hc, List.map_cons]
        rw [List.range_succ_eq_map, List.map_cons, List.map_map]
        congr 1
        · have h0 : ¬((0 : Nat) = n2 + 1 - 1) := by omega
          rw [if_neg h0]
          simp [chunkToInterval, Prod.ext_iff]
        · rw [← htail]
          apply List.map_congr_left
          intro i hi
          simp only [Function.comp]
          by_cases hl : i = n2 - 1
          · have h2 : Nat.succ i = n2 + 1 - 1 := by omega
            rw [if_pos h2, if_pos hl]
            simp only [Prod.ext_iff]
            constructor
            · push_cast; ring
            · push_cast [Nat.cast_sub (le_of_not_le htC)]; ring
          · have h2 : ¬(Nat.succ i = n2 + 1 - 1) := by omega
            rw [if_neg h2, if_neg hl]
            simp only [Prod.ext_iff]
            constructor
            · push_cast; ring
            · push_cast; ring

theorem chunksFrom_ne_nil (C s t : Nat) (hC : 0 < C) (ht : 0 < t) :
    chunksFrom C s t ≠ [] := by
  rw [chunksFrom]
  have h1 : ¬(C = 0 ∨ t = 0) := by omega
  rw [dif_neg h1]
  split <;> simp

theorem consecChunksB_chunksFrom (C : Nat) (hC : 0 < C) :
    ∀ t s : Nat,
      consecChunksB (s : Int) ((chunksFrom C s t).map chunkToInterval) = true := by
  intro t
  induction t using Nat.strong_induction_on with
  | _ t ih =>
    intro s
    by_cases ht0 : t = 0
    · subst ht0
      rw [chunksFrom]
      simp [consecChunksB]
    · have h1 : ¬(C = 0 ∨ t = 0) := by omega
      by_cases htC : t ≤ C
      · rw [chunksFrom, dif_neg h1, dif_pos htC, List.map_cons, List.map_nil,
          consecChunksB, consecChunksB]
        simp [chunkToInterval]
        omega
      · rw [chunksFrom, dif_neg h1, dif_neg htC, List.map_cons, consecChunksB]
        have hnext : (chunkToInterval (s, C)).2 + 1 = ((s + C : Nat) : Int) := by
          simp [chunkToInterval]
        rw [hnext]
        have htail := ih (t - C) (by omega) (s + C)
        rw [htail]
        simp [chunkToInterval]
        omega

theorem chunksFrom_dropLast_sizes (C : Nat) (hC : 0 < C) :
    ∀ t s : Nat, ∀ q ∈ (chunksFrom C s t).dropLast, q.2 = C := by
  intro t
  induction t using Nat.strong_induction_on with
  | _ t ih =>
    intro s q hq
    by_cases ht0 : t = 0
    · subst ht0
      rw [chunksFrom] at hq
      simp at hq
    · have h1 : ¬(C = 0 ∨ t = 0) := by omega
      by_cases htC : t ≤ C
      · rw [chunksFrom, dif_neg h1, dif_pos htC] at hq
        simp at hq
      · rw [chunksFrom, dif_neg h1, dif_neg htC] at hq
        rw [List.dropLast_cons_of_ne_nil
          (chunksFrom_ne_nil C (s + C) (t - C) hC (by omega))] at hq
        rcases List.mem_cons.mp hq with h | h
        · rw [h]
        · exact ih (t - C) (by omega) (s + C) q h

theorem getLast?_cons_ne_nil {α : Type} (a : α) (l : List α) (h : l ≠ []) :
    (a :: l).getLast? = l.getLast? := by
  cases l with
  | nil => exact absurd rfl h
  | cons b m => rw [List.getLast?_cons_cons]

theorem chunksFrom_getLast_snd (C : Nat) (hC : 0 < C) :
    ∀ t s : Nat, 0 < t →
      (((chunksFrom C s t).map chunkToInterval).getLast?).map Prod.snd =
        some ((s : Int) + t - 1) := by
  intro t
  induction t using Nat.strong_induction_on with
  | _ t ih =>
    intro s ht
    have h1 : ¬(C = 0 ∨ t = 0) := by omega
    by_cases htC : t ≤ C
    · rw [chunksFrom, dif_neg h1, dif_pos htC]
      simp [chunkToInterval]
    · rw [chunksFrom, dif_neg h1, dif_neg htC, List.map_cons]
      have hne : (chunksFrom C (s + C) (t - C)).map chunkToInterval ≠ [] := by
        simp [chunksFrom_ne_nil C (s + C) (t - C) hC (by omega)]
      rw [getLast?_cons_ne_nil _ _ hne]
      rw [ih (t - C) (by omega) (s + C) (by omega)]
      congr 1
      push_cast [Nat.cast_sub (le_of_not_le htC)]
      ring

theorem natSlice_append (obj : Bytes) (o a b : Nat) :
    natSlice obj o a ++ natSlice obj (o + a) b = natSlice obj o (a + b) := by
  unfold natSlice
  rw [List.take_add, List.drop_drop]

theorem flatten_chunksFrom (obj : Bytes) (C : Nat) (hC : 0 < C) :
    ∀ t s : Nat,
      (((chunksFrom C s t).map fun q => natSlice obj q.1 q.2)).flatten =
        natSlice obj s t := by
  intro t
  induction t using Nat.strong_induction_on with
  | _ t ih =>
    intro s
    by_cases ht0 : t = 0
    · subst ht0
      rw [chunksFrom]
      simp [natSlice]
    · have h1 : ¬(C = 0 ∨ t = 0) := by omega
      by_cases htC : t ≤ C
      · rw [chunksFrom, dif_neg h1, dif_pos htC]
        simp
      · rw [chunksFrom, dif_neg h1, dif_neg htC, List.map_cons,
          List.flatten_cons]
        rw [ih (t - C) (by omega) (s + C)]
        rw [natSlice_append obj s C (t - C)]
        congr 1
        omega

theorem sliceIncl_ofNat (obj : Bytes) (o l : Nat) :
    sliceIncl obj (o : Int) ((o : Int) + l - 1) = natSlice obj o l := by
  unfold sliceIncl natSlice
  have h1 : ((o : Int)).toNat = o := by omega
  have h2 : ((o : Int) + l - 1 - o + 1).toNat = l := by omega
  rw [h1, h2]

/-- Against an ideal remote serving `obj`, `S3Zip.get(start, length)` with
`Nat`-representable arguments returns exactly the object's bytes at
positions `start..start+length-1`, on both the single-read and the chunked
path. -/
theorem objGet_eq_natSlice (obj : Bytes) (threshold C : Nat) (hC : 0 < C)
    (s l : Nat) :
    objGet obj threshold C (s : Int) (l : Int) = natSlice obj s l := by
  unfold objGet getI
  split
  · exact sliceIncl_ofNat obj s l
  · rw [intervals_eq_chunksFrom C hC l s, List.map_map]
    have hmap : ((chunksFrom C s l).map
        ((fun p : Int × Int => sliceIncl obj p.1 p.2) ∘ chunkToInterval)) =
        (chunksFrom C s l).map fun q => natSlice obj q.1 q.2 := by
      apply List.map_congr_left
      intro q _
      simp only [Function.comp, chunkToInterval]
      exact sliceIncl_ofNat obj q.1 q.2
    rw [hmap, flatten_chunksFrom obj C hC l s]

/-- C1: a fetch of `length > multipart_threshold` bytes at `start`
partitions `[start, start+length)` into consecutive, non-overlapping
chunks: the chunk intervals begin at `start`, each is non-empty and starts
immediately after its predecessor ends, every non-final chunk spans exactly
the configured `chunk_size` bytes, the final chunk ends at
`start+length-1` (so its size is the remainder), and against an ideal
remote the chunked fetch returns byte-for-byte the same output as a single
unsplit fetch of the same range (the same call with a threshold that
admits a single read).  A fetch with `length <= threshold` issues exactly
one ranged read. -/
theorem C1_chunked_fetch_refines_single (obj : Bytes)
    (threshold C start length : Nat) (hC : 0 < C) :
    ((threshold : Int) < length →
      consecChunksB (start : Int)
        (calculate_range_intervals (length : Int) (start : Int) C) = true ∧
      (∀ p ∈ (calculate_range_intervals (length : Int) (start : Int) C).dropLast,
        p.2 - p.1 + 1 = (C : Int)) ∧
      ((calculate_range_intervals (length : Int) (start : Int) C).getLast?).map
          Prod.snd = some ((start : Int) + length - 1) ∧
      objGet obj threshold C (start : Int) (length : Int) =
        objGet obj length C (start : Int) (length : Int)) ∧
    ((length : Int) ≤ threshold →
      get_requests threshold C (start : Int) (length : Int) =
        [rangeHeader (start : Int) ((start : Int) + length - 1)]) := by
  constructor
  · intro hlt
    have hl : 0 < length := by
      have : threshold < length := by exact_mod_cast hlt
      omega
    refine ⟨?_, ?_, ?_, ?_⟩
    · rw [intervals_eq_chunksFrom C hC length start]
      exact consecChunksB_chunksFrom C hC length start
    · intro p hp
      rw [intervals_eq_chunksFrom C hC length start, ← List.map_dropLast] at hp
      rcases List.mem_map.mp hp with ⟨q, hq, hpq⟩
      have hqC : q.2 = C := chunksFrom_dropLast_sizes C hC length start q hq
      rw [← hpq]
      simp only [chunkToInterval, hqC]
      ring
    · rw [intervals_eq_chunksFrom C hC length start]
      exact chunksFrom_getLast_snd C hC length start hl
    · rw [objGet_eq_natSlice obj threshold C hC start length,
        objGet_eq_natSlice obj length C hC start length]
  · intro hle
    unfold get_requests
    rw [if_pos hle]

/-- Witness for C1 at a concrete input: `chunk_size = 2`, `threshold = 1`,
fetching 3 bytes at offset 0 of the empty object (the partition facts do
not depend on the object). -/
theorem C1_chunked_fetch_refines_single_witness :
    0 < 2 ∧
    (((1 : Nat) : Int) < (3 : Nat) →
      consecChunksB ((0 : Nat) : Int)
        (calculate_range_intervals ((3 : Nat) : Int) ((0 : Nat) : Int) 2) = true ∧
      (∀ p ∈ (calculate_range_intervals ((3 : Nat) : Int) ((0 : Nat) : Int)
          2).dropLast, p.2 - p.1 + 1 = ((2 : Nat) : Int)) ∧
      ((calculate_range_intervals ((3 : Nat) : Int) ((0 : Nat) : Int)
          2).getLast?).map Prod.snd =
        some (((0 : Nat) : Int) + (3 : Nat) - 1) ∧
      objGet [] 1 2 ((0 : Nat) : Int) ((3 : Nat) : Int) =
        objGet [] 3 2 ((0 : Nat) : Int) ((3 : Nat) : Int)) ∧
    (((3 : Nat) : Int) ≤ (1 : Nat) →
      get_requests 1 2 ((0 : Nat) : Int) ((3 : Nat) : Int) =
        [rangeHeader ((0 : Nat) : Int) (((0 : Nat) : Int) + (3 : Nat) - 1)]) :=
  ⟨by decide, C1_chunked_fetch_refines_single [] 1 2 0 3 (by decide)⟩

/-- One completion schedule of the `ThreadPoolExecutor`: the chunk reads
finish (and are written into their result slots) in the order listed in
`order`; slot `i` always receives the result of chunk `i`, which is what
`executor.map` guarantees when it yields results in input order. -/
def storeWrites (results : List Bytes) (order : List Nat)
    (store : List (Option Bytes)) : List (Option Bytes) :=
  match order with
  | [] => store
  | i :: rest => storeWrites results rest (store.set i (some (results.getD i [])))

/-- `threaded_get` with an explicit completion schedule: run the chunk
reads, fill the result slots in completion order, then (as `executor.map`
does) read the slots back in input order and join; `none` if some slot was
never completed. -/
def threaded_get_sched (client : String → Bytes) (chunksize : Nat)
    (offset file_size : Int) (order : List Nat) : Option Bytes :=
  let results := (calculate_range_parameters file_size offset chunksize).map
    (ranged_http_get client)
  let store := storeWrites results order (List.replicate results.length none)
  if store.all Option.isSome then
    some ((store.map fun o => o.getD []).flatten)
  else none

theorem storeWrites_length (results : List Bytes) :
    ∀ (order : List Nat) (store : List (Option Bytes)),
      (storeWrites results order store).length = store.length := by
  intro order
  induction order with
  | nil => intro store; rfl
  | cons j rest ih =>
    intro store
    rw [storeWrites, ih, List.length_set]

theorem storeWrites_getD (results : List Bytes) :
    ∀ (order : List Nat) (store : List (Option Bytes)) (i : Nat),
      i < store.length →
      (storeWrites results order store).getD i none =
        if i ∈ order then some (results.getD i []) else store.getD i none := by
  intro order
  induction order with
  | nil =>
    intro store i hi
    rw [storeWrites]
    simp
  | cons j rest ih =>
    intro store i hi
    rw [storeWrites]
    have hlen : i < (store.set j (some (results.getD j []))).length := by
      rw [List.length_set]; exact hi
    rw [ih _ i hlen]
    by_cases hmem : i ∈ rest
    · rw [if_pos hmem, if_pos (List.mem_cons.mpr (Or.inr hmem))]
    · rw [if_neg hmem]
      by_cases hij : i = j
      · subst hij
        rw [if_pos (List.mem_cons.mpr (Or.inl rfl))]
        rw [List.getD_eq_getElem _ _ hlen, List.getElem_set_self hlen]
      · have hji : j ≠ i := fun h => hij h.symm
        have hnotc : i ∉ j :: rest := by
          intro hc
          rcases List.mem_cons.mp hc with h | h
          · exact hij h
          · exact hmem h
        rw [if_neg hnotc]
        rw [List.getD_eq_getElem _ _ hlen, List.getElem_set_ne hji hlen,
          List.getD_eq_getElem _ _ hi]

theorem threaded_get_sched_eq (client : String → Bytes) (chunksize : Nat)
    (offset file_size : Int) (order : List Nat)
    (h : order.Perm (List.range
      (calculate_range_parameters file_size offset chunksize).length)) :
    threaded_get_sched client chunksize offset file_size order =
      some (threaded_get client chunksize offset file_size) := by
  simp only [threaded_get_sched]
  set results := (calculate_range_parameters file_size offset chunksize).map
    (ranged_http_get client) with hres
  set store := storeWrites results order (List.replicate results.length none)
    with hst
  have hstlen : store.length = results.length := by
    rw [hst, storeWrites_length, List.length_replicate]
  have hget : ∀ i, i < results.length →
      store.getD i none = some (results.getD i []) := by
    intro i hi
    rw [hst, storeWrites_getD _ _ _ i (by rw [List.length_replicate]; exact hi)]
    have hmem : i ∈ order := by
      rw [h.mem_iff, List.mem_range]
      rw [hres, List.length_map] at hi
      exact hi
    rw [if_pos hmem]
  have hstore_eq : store = results.map some := by
    apply List.ext_getElem
    · simp [hstlen, hres]
    · intro i h1 h2
      have hi : i < results.length := by
        rw [List.length_map] at h2; exact h2
      have hgi := hget i hi
      rw [List.getD_eq_getElem _ _ h1, List.getD_eq_getElem _ _ hi] at hgi
      rw [hgi]
      simp
  rw [hstore_eq]
  have hall : (results.map some).all Option.isSome = true := by
    rw [List.all_eq_true]
    intro x hx
    rcases List.mem_map.mp hx with ⟨a, _, ha⟩
    rw [← ha]
    rfl
  rw [if_pos hall, List.map_map]
  have hid : ((fun o : Option Bytes => o.getD []) ∘ some) = id := by
    funext o
    rfl
  rw [hid, List.map_id, hres, threaded_get]

/-- C9: the concatenated result of a chunked fetch does not depend on the
completion order of the concurrent chunk reads: for any two completion
schedules that each run every chunk exactly once (permutations of the
chunk indices), the assembled byte string is identical, and equals the
`threaded_get` result, which joins the per-chunk bodies in ascending
start-offset (input) order. -/
theorem C9_concatenation_schedule_independent (client : String → Bytes)
    (chunksize : Nat) (offset file_size : Int) (order1 order2 : List Nat)
    (h1 : order1.Perm (List.range
      (calculate_range_parameters file_size offset chunksize).length))
    (h2 : order2.Perm (List.range
      (calculate_range_parameters file_size offset chunksize).length)) :
    threaded_get_sched client chunksize offset file_size order1 =
      threaded_get_sched client chunksize offset file_size order2 ∧
    threaded_get_sched client chunksize offset file_size order1 =
      some (threaded_get client chunksize offset file_size) := by
  have e1 := threaded_get_sched_eq client chunksize offset file_size order1 h1
  have e2 := threaded_get_sched_eq client chunksize offset file_size order2 h2
  exact ⟨e1.trans e2.symm, e1⟩

/-- Witness for C9 at a concrete input: two chunks (3 bytes, chunk size 2),
with the two possible completion orders. -/
theorem C9_concatenation_schedule_independent_witness :
    [1, 0].Perm (List.range
      (calculate_range_parameters (3 : Int) (0 : Int) 2).length) ∧
    [0, 1].Perm (List.range
      (calculate_range_parameters (3 : Int) (0 : Int) 2).length) ∧
    (threaded_get_sched (fun _ => [37]) 2 (0 : Int) (3 : Int) [1, 0] =
      threaded_get_sched (fun _ => [37]) 2 (0 : Int) (3 : Int) [0, 1] ∧
    threaded_get_sched (fun _ => [37]) 2 (0 : Int) (3 : Int) [1, 0] =
      some (threaded_get (fun _ => [37]) 2 (0 : Int) (3 : Int))) :=
  ⟨by decide, by decide,
    C9_concatenation_schedule_independent (fun _ => [37]) 2 0 3 [1, 0] [0, 1]
      (by decide) (by decide)⟩

/-- C10: a fetch of length 0 takes the single-read path, since
`0 <= multipart_threshold` always holds, and issues exactly one remote
ranged read whose header is the inverted interval `bytes=start-(start-1)`
(`end = start + 0 - 1`); the call returns that read's body instead of
returning empty bytes without remote I/O. -/
theorem C10_zero_length_issues_inverted_read (client : String → Bytes)
    (threshold chunksize : Nat) (start : Int) :
    get_requests threshold chunksize start 0 =
      [rangeHeader start (start - 1)] ∧
    S3Zip_get client threshold chunksize start 0 =
      ranged_http_get client (rangeHeader start (start - 1)) := by
  have h0 : (0 : Int) ≤ (threshold : Int) := by omega
  have harith : start + 0 - 1 = start - 1 := by ring
  constructor
  · simp only [get_requests]
    rw [if_pos h0, harith]
  · simp only [S3Zip_get]
    rw [if_pos h0, harith]

/-- C4 (amended): `get` performs no length or status validation: it
returns the concatenation of whatever bodies the remote client hands back
for the issued headers, and on the single-read path it returns the remote
body as is, so a remote read that returns fewer bytes than requested
yields a silently short result and no error is raised (the code has no
failure path and no `RangeReadError`). -/
theorem C4_amended_get_unvalidated (client : String → Bytes)
    (threshold chunksize : Nat) (start length : Int) :
    S3Zip_get client threshold chunksize start length =
      ((get_requests threshold chunksize start length).map client).flatten ∧
    (length ≤ (threshold : Int) →
      S3Zip_get client threshold chunksize start length =
        client (rangeHeader start (start + length - 1))) := by
  refine ⟨S3Zip_get_eq_flatten_requests client threshold chunksize start length, ?_⟩
  intro hle
  simp only [S3Zip_get]
  rw [if_pos hle]
  rfl

/-- Witness for the amended C4 at a concrete input: a remote that always
returns a one-byte body for a two-byte request. -/
theorem C4_amended_get_unvalidated_witness :
    S3Zip_get (fun _ => [9]) 8 8 (0 : Int) (2 : Int) =
      ((get_requests 8 8 (0 : Int) (2 : Int)).map (fun _ => [9])).flatten ∧
    ((2 : Int) ≤ ((8 : Nat) : Int) →
      S3Zip_get (fun _ => [9]) 8 8 (0 : Int) (2 : Int) =
        (fun _ : String => ([9] : Bytes)) (rangeHeader (0 : Int) ((0 : Int) + 2 - 1))) :=
  C4_amended_get_unvalidated (fun _ => [9]) 8 8 0 2

/-- C4 counterexample: with a remote whose read returns an empty body, a
fetch of 5 bytes at offset 0 returns 0 bytes — not the requested 5 — and
no error of any kind is raised (the translated `get` has no failure
outcome, matching the code's absence of any validation or
`RangeReadError`). -/
theorem C4_short_read_counterexample :
    S3Zip_get (fun _ => []) 8 8 (0 : Int) (5 : Int) = [] ∧
    (S3Zip_get (fun _ => []) 8 8 (0 : Int) (5 : Int)).length ≠
      (5 : Int).toNat := by
  constructor
  · rfl
  · decide

/-- `S3Zip.parse_short`: `ord(in_bytes[0:1]) + (ord(in_bytes[1:2]) << 8)`;
`none` models the `TypeError` that `ord` raises when a requested one-byte
slice is empty. -/
def parse_short (in_bytes : Bytes) : Option Nat :=
  match in_bytes with
  | b0 :: b1 :: _ => some (b0.val + (b1.val <<< 8))
  | _ => none

/-- Unsigned little-endian value of a byte string. -/
def leNat (b : Bytes) : Nat :=
  b.foldr (fun x acc => x.val + 256 * acc) 0

/-- `S3Zip.parse_little_endian_to_int`: `struct.unpack('<i', b)` when the
input has length 4 and `struct.unpack('<q', b)` otherwise.  Both formats
are SIGNED two's-complement decodings (`'i'`/`'q'`, not the unsigned
`'I'`/`'Q'`), which this definition reproduces.  (`struct.unpack` demands
an exact 4- or 8-byte input; callers in scope pass slices of those
lengths.) -/
def parse_little_endian_to_int (little_endian_bytes : Bytes) : Int :=
  if little_endian_bytes.length = 4 then
    if leNat little_endian_bytes < 2 ^ 31 then (leNat little_endian_bytes : Int)
    else (leNat little_endian_bytes : Int) - 2 ^ 32
  else
    if leNat little_endian_bytes < 2 ^ 63 then (leNat little_endian_bytes : Int)
    else (leNat little_endian_bytes : Int) - 2 ^ 64

/-- Python slice `b[i:j]` for `0 ≤ i ≤ j`. -/
def pySlice (b : Bytes) (i j : Nat) : Bytes :=
  (b.drop i).take (j - i)

/-- `S3Zip.get_central_directory_metadata_from_eocd`: `cd_size` from
`eocd[12:16]`, `cd_start` from `eocd[16:20]`; returns `(cd_start, cd_size)`. -/
def get_central_directory_metadata_from_eocd (eocd : Bytes) : Int × Int :=
  let cd_size := parse_little_endian_to_int (pySlice eocd 12 16)
  let cd_start := parse_little_endian_to_int (pySlice eocd 16 20)
  (cd_start, cd_size)

/-- `S3Zip.get_central_directory_metadata_from_eocd64`: `cd_size` from
`eocd64[40:48]`, `cd_start` from `eocd64[48:56]`; returns
`(cd_start, cd_size)`. -/
def get_central_directory_metadata_from_eocd64 (eocd64 : Bytes) : Int × Int :=
  let cd_size := parse_little_endian_to_int (pySlice eocd64 40 48)
  let cd_start := parse_little_endian_to_int (pySlice eocd64 48 56)
  (cd_start, cd_size)

/-- Result of `S3Zip.get_zip_dir`: which end-of-central-directory variant
was taken, the parsed central-directory location, the `(start, length)`
arguments of the `self.get` calls issued in order, and the byte string
handed to `zipfile.ZipFile`. -/
structure ZipDirInfo where
  isZip64 : Bool
  cd_start : Int
  cd_size : Int
  requests : List (Int × Int)
  dir_bytes : Bytes

/-- `S3Zip.get_zip_dir` against an ideal remote serving `obj`, with
`EOCD_RECORD_SIZE = 22`, `ZIP64_EOCD_RECORD_SIZE = 56`,
`ZIP64_EOCD_LOCATOR_SIZE = 20`, `MAX_STANDARD_ZIP_SIZE = 4294967295`
inlined as in the source. -/
def get_zip_dir (obj : Bytes) (threshold chunksize : Nat) : ZipDirInfo :=
  let file_size : Int := obj.length
  let eocd_record := objGet obj threshold chunksize (file_size - 22) 22
  if file_size ≤ 4294967295 then
    let m := get_central_directory_metadata_from_eocd eocd_record
    let central_directory := objGet obj threshold chunksize m.1 m.2
    { isZip64 := false
      cd_start := m.1
      cd_size := m.2
      requests := [(file_size - 22, 22), (m.1, m.2)]
      dir_bytes := central_directory ++ eocd_record }
  else
    let zip64_eocd_record := objGet obj threshold chunksize
      (file_size - (22 + 20 + 56)) 56
    let zip64_eocd_locator := objGet obj threshold chunksize
      (file_size - (22 + 20)) 20
    let m := get_central_directory_metadata_from_eocd64 zip64_eocd_record
    let central_directory := objGet obj threshold chunksize m.1 m.2
    { isZip64 := true
      cd_start := m.1
      cd_size := m.2
      requests := [(file_size - 22, 22), (file_size - (22 + 20 + 56), 56),
        (file_size - (22 + 20), 20), (m.1, m.2)]
      dir_bytes := central_directory ++ zip64_eocd_record ++
        zip64_eocd_locator ++ eocd_record }

theorem pySlice_natSlice (obj : Bytes) (o l i j : Nat) (hj : j ≤ l) :
    pySlice (natSlice obj o l) i j = natSlice obj (o + i) (j - i) := by
  unfold pySlice natSlice
  rw [List.drop_take, List.take_take, List.drop_drop]
  rw [Nat.min_eq_left (by omega)]

theorem objGet_sub_eq_natSlice (obj : Bytes) (threshold chunksize : Nat)
    (hC : 0 < chunksize) (k l : Nat) (hk : k ≤ obj.length) :
    objGet obj threshold chunksize ((obj.length : Int) - k) l =
      natSlice obj (obj.length - k) l := by
  have h1 : ((obj.length : Int) - k) = ((obj.length - k : Nat) : Int) := by
    omega
  have h2 : (l : Int) = ((l : Nat) : Int) := rfl
  rw [h1]
  exact objGet_eq_natSlice obj threshold chunksize hC (obj.length - k) l

/-- C2: directory resolution selects the standard end-of-central-directory
path exactly when the total object size is at most 4294967295 bytes,
parsing the central-directory size from bytes 12..16 and its start offset
from bytes 16..20 of the trailing 22-byte record, and issuing only the
EOCD read plus the central-directory read; for strictly larger objects it
takes the ZIP64 path, additionally fetching the 56-byte ZIP64 EOCD record
at `size-98` and the 20-byte locator at `size-42` before parsing the
64-bit size and start fields from record bytes 40..48 and 48..56. -/
theorem C2_eocd_path_selection (obj : Bytes) (threshold chunksize : Nat)
    (hC : 0 < chunksize) (h22 : 22 ≤ obj.length) :
    (((obj.length : Int)) ≤ 4294967295 →
      (get_zip_dir obj threshold chunksize).isZip64 = false ∧
      (get_zip_dir obj threshold chunksize).cd_size =
        parse_little_endian_to_int (natSlice obj (obj.length - 22 + 12) 4) ∧
      (get_zip_dir obj threshold chunksize).cd_start =
        parse_little_endian_to_int (natSlice obj (obj.length - 22 + 16) 4) ∧
      (get_zip_dir obj threshold chunksize).requests =
        [((obj.length : Int) - 22, 22),
          ((get_zip_dir obj threshold chunksize).cd_start,
            (get_zip_dir obj threshold chunksize).cd_size)]) ∧
    (4294967295 < ((obj.length : Int)) →
      (get_zip_dir obj threshold chunksize).isZip64 = true ∧
      (get_zip_dir obj threshold chunksize).cd_size =
        parse_little_endian_to_int (natSlice obj (obj.length - 98 + 40) 8) ∧
      (get_zip_dir obj threshold chunksize).cd_start =
        parse_little_endian_to_int (natSlice obj (obj.length - 98 + 48) 8) ∧
      (get_zip_dir obj threshold chunksize).requests =
        [((obj.length : Int) - 22, 22),
          ((obj.length : Int) - (22 + 20 + 56), 56),
          ((obj.length : Int) - (22 + 20), 20),
          ((get_zip_dir obj threshold chunksize).cd_start,
            (get_zip_dir obj threshold chunksize).cd_size)]) := by
  have heocd := objGet_sub_eq_natSlice obj threshold chunksize hC 22 22 h22
  norm_num at heocd
  constructor
  · intro hle
    simp only [get_zip_dir, heocd]
    rw [if_pos hle]
    refine ⟨rfl, ?_, ?_, rfl⟩
    · simp only [get_central_directory_metadata_from_eocd]
      have hps := pySlice_natSlice obj (obj.length - 22) 22 12 16 (by omega)
      norm_num at hps
      rw [hps]
    · simp only [get_central_directory_metadata_from_eocd]
      have hps := pySlice_natSlice obj (obj.length - 22) 22 16 20 (by omega)
      norm_num at hps
      rw [hps]
  · intro hgt
    have h98 : 98 ≤ obj.length := by omega
    have hrec : ((obj.length : Int) - (22 + 20 + 56)) = (obj.length : Int) - 98 := by
      ring
    have heocd64 := objGet_sub_eq_natSlice obj threshold chunksize hC 98 56 h98
    norm_num at heocd64
    have hnle : ¬((obj.length : Int) ≤ 4294967295) := by omega
    simp only [get_zip_dir, hrec, heocd64]
    rw [if_neg hnle]
    refine ⟨rfl, ?_, ?_, ?_⟩
    · simp only [get_central_directory_metadata_from_eocd64]
      have hps := pySlice_natSlice obj (obj.length - 98) 56 40 48 (by omega)
      norm_num at hps
      rw [hps]
    · simp only [get_central_directory_metadata_from_eocd64]
      have hps := pySlice_natSlice obj (obj.length - 98) 56 48 56 (by omega)
      norm_num at hps
      rw [hps]
    · rfl

/-- A concrete 30-byte all-zero object for the C2 witness. -/
def objC2 : Bytes := List.replicate 30 0

/-- Witness for C2 at the concrete object `objC2` (30 bytes, standard-size
side; the ZIP64 implication is instantiated but its antecedent is false at
this size). -/
theorem C2_eocd_path_selection_witness :
    0 < 8 ∧ 22 ≤ objC2.length ∧
    ((((objC2.length : Int)) ≤ 4294967295 →
      (get_zip_dir objC2 8 8).isZip64 = false ∧
      (get_zip_dir objC2 8 8).cd_size =
        parse_little_endian_to_int (natSlice objC2 (objC2.length - 22 + 12) 4) ∧
      (get_zip_dir objC2 8 8).cd_start =
        parse_little_endian_to_int (natSlice objC2 (objC2.length - 22 + 16) 4) ∧
      (get_zip_dir objC2 8 8).requests =
        [((objC2.length : Int) - 22, 22),
          ((get_zip_dir objC2 8 8).cd_start, (get_zip_dir objC2 8 8).cd_size)]) ∧
    (4294967295 < ((objC2.length : Int)) →
      (get_zip_dir objC2 8 8).isZip64 = true ∧
      (get_zip_dir objC2 8 8).cd_size =
        parse_little_endian_to_int (natSlice objC2 (objC2.length - 98 + 40) 8) ∧
      (get_zip_dir objC2 8 8).cd_start =
        parse_little_endian_to_int (natSlice objC2 (objC2.length - 98 + 48) 8) ∧
      (get_zip_dir objC2 8 8).requests =
        [((objC2.length : Int) - 22, 22),
          ((objC2.length : Int) - (22 + 20 + 56), 56),
          ((objC2.length : Int) - (22 + 20), 20),
          ((get_zip_dir objC2 8 8).cd_start, (get_zip_dir objC2 8 8).cd_size)])) :=
  ⟨by decide, by decide,
    C2_eocd_path_selection objC2 8 8 (by decide) (by decide)⟩

/-- C7 (code bug): the resolver parses the 4-byte EOCD offset/size fields
with the SIGNED struct format `'<i'` (and 8-byte fields with `'<q'`), not
the unsigned `'<I'`/`'<Q'` the ZIP format prescribes.  On a 4-byte field
whose high bit is set — central-directory start bytes `00 00 00 80`,
unsigned value 2147483648 — the code computes the negative value
-2147483648, so the parsed integer does not equal the non-negative
unsigned value. -/
theorem C7_signed_parse_code_bug :
    parse_little_endian_to_int [0, 0, 0, 128] = -2147483648 ∧
    leNat [0, 0, 0, 128] = 2147483648 ∧
    (get_central_directory_metadata_from_eocd
      (List.replicate 16 (0 : Byte) ++ [0, 0, 0, 128] ++ [0, 0])).1 =
      -2147483648 ∧
    (get_central_directory_metadata_from_eocd
      (List.replicate 16 (0 : Byte) ++ [0, 0, 0, 128] ++ [0, 0])).1 ≠
      ((leNat [0, 0, 0, 128] : Int)) := by
  refine ⟨by decide, by decide, by decide, by decide⟩

/-- Kinds of Python exception raised (or, for the spec-taxonomy items,
merely named by the specification): `indexError` models the `IndexError`
of `[...][0]` on an empty match list, `typeError` the `ord('')` failure,
`decompressionError` a failure raised by the external inflater.  The last
three constructors exist only so that the specification2s error taxonomy
can be stated; the translated code never produces them. -/
inductive PyError where
  | indexError
  | typeError
  | decompressionError
  | entryNotFoundError
  | unsupportedCompressionError
  | rangeReadError
deriving DecidableEq

/-- The fields of a `zipfile.ZipInfo` central-directory entry that
`S3Zip.extract_file` reads: member name, local-header offset as reported
by `zipfile` (relative — see `absolute_header_offset`), compressed size,
and compression method. -/
structure ZipInfo where
  filename : String
  header_offset : Nat
  compress_size : Nat
  compress_type : Nat
deriving DecidableEq

/-- `zipfile.ZIP_STORED`. -/
def ZIP_STORED : Nat := 0

/-- `zipfile.ZIP_DEFLATED`. -/
def ZIP_DEFLATED : Nat := 8

/-- The state an `S3Zip` instance carries into `extract_file`: the remote
object's bytes (served by the ideal remote), the parsed
central-directory start `self.cd_start`, the parsed `zip_dir.filelist`,
and the multipart configuration. -/
structure Archive where
  obj : Bytes
  cd_start : Nat
  filelist : List ZipInfo
  multipart_threshold : Nat
  multipart_chunksize : Nat

/-- The absolute local-header offset of an entry within the object.
`zipfile` parses the central directory from a buffer holding only
`central_directory + eocd`, so the `header_offset` values it reports are
shifted down by `cd_start` (zipfile's `concat` correction), and the code
re-adds `self.cd_start` at every use; the absolute offset is
`cd_start + header_offset`. -/
def absolute_header_offset (arc : Archive) (zi : ZipInfo) : Nat :=
  arc.cd_start + zi.header_offset

/-- `S3Zip.extract_file(filename)` (the `outname=None` branch, which
returns the bytes).  `inflate wbits data` abstracts the external
`isal_zlib.decompressobj(wbits).decompress(data)`; the code calls it with
`wbits = -1 * ZLIB_MAX_WBITS = -15`, raw-deflate framing.  The filter plus
`[0]` models `[zi for zi in self.zip_dir.filelist if zi.filename ==
filename][0]`. -/
def extract_file (inflate : Int → Bytes → Except PyError Bytes)
    (arc : Archive) (filename : String) : Except PyError Bytes :=
  match arc.filelist.filter (fun zi => zi.filename == filename) with
  | [] => .error .indexError
  | zi :: _ =>
    let file_head := objGet arc.obj arc.multipart_threshold
      arc.multipart_chunksize ((arc.cd_start : Int) + zi.header_offset + 26) 4
    match parse_short (file_head.take 2) with
    | none => .error .typeError
    | some name_len =>
      match parse_short (file_head.drop 2) with
      | none => .error .typeError
      | some extra_len =>
        let content_offset := (arc.cd_start : Int) + zi.header_offset + 30 +
          name_len + extra_len
        let content := objGet arc.obj arc.multipart_threshold
          arc.multipart_chunksize content_offset zi.compress_size
        if zi.compress_type == ZIP_DEFLATED then
          inflate (-1 * 15) content
        else
          .ok content

theorem extract_file_run (inflate : Int → Bytes → Except PyError Bytes)
    (arc : Archive) (name : String) (zi : ZipInfo) (rest : List ZipInfo)
    (hC : 0 < arc.multipart_chunksize)
    (hfind : arc.filelist.filter (fun z => z.filename == name) = zi :: rest)
    (b0 b1 b2 b3 : Byte)
    (hhead : natSlice arc.obj (arc.cd_start + zi.header_offset + 26) 4 =
      [b0, b1, b2, b3]) :
    extract_file inflate arc name =
      if zi.compress_type == ZIP_DEFLATED then
        inflate (-1 * 15) (natSlice arc.obj
          (arc.cd_start + zi.header_offset + 30 + (b0.val + 256 * b1.val) +
            (b2.val + 256 * b3.val)) zi.compress_size)
      else
        .ok (natSlice arc.obj
          (arc.cd_start + zi.header_offset + 30 + (b0.val + 256 * b1.val) +
            (b2.val + 256 * b3.val)) zi.compress_size) := by
  have hofs : ((arc.cd_start : Int) + zi.header_offset + 26) =
      ((arc.cd_start + zi.header_offset + 26 : Nat) : Int) := by
    push_cast; ring
  have hget : objGet arc.obj arc.multipart_threshold arc.multipart_chunksize
      ((arc.cd_start : Int) + zi.header_offset + 26) 4 = [b0, b1, b2, b3] := by
    rw [hofs, show (4 : Int) = ((4 : Nat) : Int) from rfl,
      objGet_eq_natSlice _ _ _ hC]
    exact hhead
  have hsh : ∀ x : Nat, x <<< 8 = 256 * x := by
    intro x
    rw [Nat.shiftLeft_eq]
    norm_num
    exact Nat.mul_comm x 256
  have hco : ((arc.cd_start : Int) + zi.header_offset + 30 +
      ((b0.val + 256 * b1.val : Nat) : Int) +
      ((b2.val + 256 * b3.val : Nat) : Int)) =
      ((arc.cd_start + zi.header_offset + 30 + (b0.val + 256 * b1.val) +
        (b2.val + 256 * b3.val) : Nat) : Int) := by
    push_cast; ring
  unfold extract_file
  rw [hfind]
  dsimp only
  rw [hget]
  dsimp only [List.take, List.drop, parse_short]
  rw [hsh b1.val, hsh b3.val]
  rw [hco, show ((zi.compress_size : Nat) : Int) = (zi.compress_size : Int) from rfl,
    objGet_eq_natSlice _ _ _ hC]

/-- C3: for an entry present in the directory (the first filter match),
extraction fetches 4 bytes at the entry's absolute local-header offset
plus 26 (hypothesis `hhead` names those four bytes), parses them as the
little-endian 16-bit values `name_len = b0 + 256*b1` and
`extra_len = b2 + 256*b3`, and fetches exactly `compress_size` bytes at
`content_offset = absolute offset + 30 + name_len + extra_len`: a stored
entry's bytes are returned unchanged, and a deflate entry's bytes are
handed to the external inflater with `wbits = -15`, i.e. raw deflate
framing with no zlib/gzip header or trailer (an inflater failure on
malformed data propagates as the result). -/
theorem C3_extract_layout (inflate : Int → Bytes → Except PyError Bytes)
    (arc : Archive) (name : String) (zi : ZipInfo) (rest : List ZipInfo)
    (hC : 0 < arc.multipart_chunksize)
    (hfind : arc.filelist.filter (fun z => z.filename == name) = zi :: rest)
    (b0 b1 b2 b3 : Byte)
    (hhead : natSlice arc.obj (absolute_header_offset arc zi + 26) 4 =
      [b0, b1, b2, b3]) :
    (zi.compress_type = ZIP_STORED →
      extract_file inflate arc name = .ok (natSlice arc.obj
        (absolute_header_offset arc zi + 30 + (b0.val + 256 * b1.val) +
          (b2.val + 256 * b3.val)) zi.compress_size)) ∧
    (zi.compress_type = ZIP_DEFLATED →
      extract_file inflate arc name = inflate (-15) (natSlice arc.obj
        (absolute_header_offset arc zi + 30 + (b0.val + 256 * b1.val) +
          (b2.val + 256 * b3.val)) zi.compress_size)) := by
  have hrun := extract_file_run inflate arc name zi rest hC hfind b0 b1 b2 b3
    hhead
  constructor
  · intro hst
    rw [hrun, hst]
    simp [ZIP_STORED, ZIP_DEFLATED, absolute_header_offset]
  · intro hdf
    rw [hrun, hdf]
    simp [ZIP_DEFLATED, absolute_header_offset]

/-- The all-zero local header bytes object used by the extraction
witnesses: a 30-byte local header (name and extra lengths 0) followed by
the two content bytes 7, 9. -/
def objC3 : Bytes := List.replicate 26 0 ++ [0, 0, 0, 0] ++ [7, 9]

/-- A stored entry at header offset 0 with 2 compressed bytes. -/
def ziC3 : ZipInfo :=
  { filename := "f", header_offset := 0, compress_size := 2,
    compress_type := 0 }

/-- Archive for the C3 witness. -/
def arcC3 : Archive :=
  { obj := objC3, cd_start := 0, filelist := [ziC3],
    multipart_threshold := 100, multipart_chunksize := 100 }

/-- An inflater that always fails; never consulted on the stored paths
exercised by the witnesses. -/
def inflate0 : Int → Bytes → Except PyError Bytes :=
  fun _ _ => .error .decompressionError

/-- Witness for C3 at the concrete archive `arcC3` (stored entry at
offset 0; the deflate implication is instantiated with a false
antecedent). -/
theorem C3_extract_layout_witness :
    0 < arcC3.multipart_chunksize ∧
    arcC3.filelist.filter (fun z => z.filename == "f") = ziC3 :: [] ∧
    natSlice arcC3.obj (absolute_header_offset arcC3 ziC3 + 26) 4 =
      [0, 0, 0, 0] ∧
    ((ziC3.compress_type = ZIP_STORED →
      extract_file inflate0 arcC3 "f" = .ok (natSlice arcC3.obj
        (absolute_header_offset arcC3 ziC3 + 30 +
          ((0 : Byte).val + 256 * (0 : Byte).val) +
          ((0 : Byte).val + 256 * (0 : Byte).val)) ziC3.compress_size)) ∧
    (ziC3.compress_type = ZIP_DEFLATED →
      extract_file inflate0 arcC3 "f" = inflate0 (-15) (natSlice arcC3.obj
        (absolute_header_offset arcC3 ziC3 + 30 +
          ((0 : Byte).val + 256 * (0 : Byte).val) +
          ((0 : Byte).val + 256 * (0 : Byte).val)) ziC3.compress_size))) :=
  ⟨by decide, by decide, by decide,
    C3_extract_layout inflate0 arcC3 "f" ziC3 [] (by decide) (by decide)
      0 0 0 0 (by decide)⟩

/-- C5 (amended): for every entry whose compression method is NOT deflate
— stored, but equally any unsupported method such as bzip2 (12) or LZMA
(14) — extraction returns the fetched bytes unchanged.  The code contains
no `UnsupportedCompressionError` and no failure path for unknown methods:
only `compress_type == ZIP_DEFLATED` is tested. -/
theorem C5_amended_non_deflate_passthrough
    (inflate : Int → Bytes → Except PyError Bytes)
    (arc : Archive) (name : String) (zi : ZipInfo) (rest : List ZipInfo)
    (hC : 0 < arc.multipart_chunksize)
    (hfind : arc.filelist.filter (fun z => z.filename == name) = zi :: rest)
    (b0 b1 b2 b3 : Byte)
    (hhead : natSlice arc.obj (absolute_header_offset arc zi + 26) 4 =
      [b0, b1, b2, b3])
    (hnd : zi.compress_type ≠ ZIP_DEFLATED) :
    extract_file inflate arc name = .ok (natSlice arc.obj
      (absolute_header_offset arc zi + 30 + (b0.val + 256 * b1.val) +
        (b2.val + 256 * b3.val)) zi.compress_size) := by
  have hrun := extract_file_run inflate arc name zi rest hC hfind b0 b1 b2 b3
    hhead
  rw [hrun]
  have hb : (zi.compress_type == ZIP_DEFLATED) = false :=
    beq_eq_false_iff_ne.mpr hnd
  rw [hb]
  simp [absolute_header_offset]

/-- An entry at header offset 0 whose compression method 12 (bzip2) is
neither stored nor deflate. -/
def ziC5 : ZipInfo :=
  { filename := "f", header_offset := 0, compress_size := 2,
    compress_type := 12 }

/-- Archive holding the bzip2-method entry over the same 32-byte object. -/
def arcC5 : Archive :=
  { obj := objC3, cd_start := 0, filelist := [ziC5],
    multipart_threshold := 100, multipart_chunksize := 100 }

/-- Witness for the amended C5: the bzip2-method entry of `arcC5` comes
back as its raw fetched bytes. -/
theorem C5_amended_non_deflate_passthrough_witness :
    0 < arcC5.multipart_chunksize ∧
    arcC5.filelist.filter (fun z => z.filename == "f") = ziC5 :: [] ∧
    natSlice arcC5.obj (absolute_header_offset arcC5 ziC5 + 26) 4 =
      [0, 0, 0, 0] ∧
    ziC5.compress_type ≠ ZIP_DEFLATED ∧
    extract_file inflate0 arcC5 "f" = .ok (natSlice arcC5.obj
      (absolute_header_offset arcC5 ziC5 + 30 +
        ((0 : Byte).val + 256 * (0 : Byte).val) +
        ((0 : Byte).val + 256 * (0 : Byte).val)) ziC5.compress_size) :=
  ⟨by decide, by decide, by decide, by decide,
    C5_amended_non_deflate_passthrough inflate0 arcC5 "f" ziC5 [] (by decide)
      (by decide) 0 0 0 0 (by decide) (by decide)⟩

/-- C5 counterexample: extracting the bzip2-method (12) entry of `arcC5`
returns `.ok [7, 9]` — exactly the raw compressed bytes fetched at its
content offset — rather than failing with any error;
`UnsupportedCompressionError` is never produced. -/
theorem C5_unsupported_counterexample :
    extract_file inflate0 arcC5 "f" = .ok [7, 9] ∧
    natSlice arcC5.obj 30 2 = [7, 9] ∧
    (Except.ok [7, 9] : Except PyError Bytes) ≠
      .error .unsupportedCompressionError :=
  ⟨rfl, rfl, fun h => Except.noConfusion h⟩

/-- C6 (amended): for a name absent from the directory, the filtered match
list is empty, `[0]` raises `IndexError` — not the spec's
`EntryNotFoundError`, which does not exist in the code — and no byte
string (in particular not the empty one) is ever returned. -/
theorem C6_amended_missing_name_index_error
    (inflate : Int → Bytes → Except PyError Bytes) (arc : Archive)
    (name : String)
    (habsent : arc.filelist.filter (fun z => z.filename == name) = []) :
    extract_file inflate arc name = .error .indexError ∧
    ∀ bs : Bytes, extract_file inflate arc name ≠ .ok bs := by
  have h1 : extract_file inflate arc name = .error .indexError := by
    unfold extract_file
    rw [habsent]
  refine ⟨h1, fun bs h => ?_⟩
  rw [h1] at h
  exact Except.noConfusion h

/-- The empty archive used by the C6 witness and counterexample. -/
def arcC6 : Archive :=
  { obj := [], cd_start := 0, filelist := [],
    multipart_threshold := 8, multipart_chunksize := 8 }

/-- Witness for the amended C6 at the empty archive. -/
theorem C6_amended_missing_name_index_error_witness :
    arcC6.filelist.filter (fun z => z.filename == "x") = [] ∧
    (extract_file inflate0 arcC6 "x" = .error .indexError ∧
      ∀ bs : Bytes, extract_file inflate0 arcC6 "x" ≠ .ok bs) :=
  ⟨rfl, C6_amended_missing_name_index_error inflate0 arcC6 "x" rfl⟩

/-- C6 counterexample: extracting a missing name fails with `IndexError`,
which is a different outcome from the claimed `EntryNotFoundError` (and
from returning empty bytes). -/
theorem C6_missing_counterexample :
    extract_file inflate0 arcC6 "x" = .error .indexError ∧
    (Except.error PyError.indexError : Except PyError Bytes) ≠
      .error .entryNotFoundError ∧
    (Except.error PyError.indexError : Except PyError Bytes) ≠ .ok [] := by
  refine ⟨rfl, fun h => ?_, fun h => Except.noConfusion h⟩
  injection h with h2
  exact absurd h2 (by decide)

/-- C8 (amended): duplicate names resolve to the FIRST matching entry in
directory order, not the last: the comprehension-plus-`[0]` lookup takes
the head of the filtered list, so entries appended after a list that
already contains the name never influence the result. -/
theorem C8_amended_first_match_wins
    (inflate : Int → Bytes → Except PyError Bytes) (obj : Bytes)
    (cds thr cs : Nat) (l1 l2 : List ZipInfo) (name : String)
    (hdup : l1.filter (fun z => z.filename == name) ≠ []) :
    extract_file inflate
        { obj := obj, cd_start := cds, filelist := l1 ++ l2,
          multipart_threshold := thr, multipart_chunksize := cs } name =
      extract_file inflate
        { obj := obj, cd_start := cds, filelist := l1,
          multipart_threshold := thr, multipart_chunksize := cs } name := by
  cases hf : l1.filter (fun z => z.filename == name) with
  | nil => exact absurd hf hdup
  | cons z zs =>
    simp only [extract_file, List.filter_append, hf, List.cons_append]

/-- The object behind the duplicate-name archives: a stored byte `1` at
content offset 30 (entry at header offset 0) and a stored byte `2` at
content offset 70 (entry at header offset 40). -/
def objC8 : Bytes :=
  List.replicate 26 0 ++ [0, 0, 0, 0] ++ [1] ++ List.replicate 35 0 ++
    [0, 0, 0, 0] ++ [2]

/-- First directory entry named `a` (header offset 0, content byte 1). -/
def ziC8a : ZipInfo :=
  { filename := "a", header_offset := 0, compress_size := 1,
    compress_type := 0 }

/-- Second directory entry named `a` (header offset 40, content byte 2). -/
def ziC8b : ZipInfo :=
  { filename := "a", header_offset := 40, compress_size := 1,
    compress_type := 0 }

/-- Archive whose directory lists the name `a` twice. -/
def arcC8 : Archive :=
  { obj := objC8, cd_start := 0, filelist := [ziC8a, ziC8b],
    multipart_threshold := 100, multipart_chunksize := 100 }

/-- The same archive restricted to the last duplicate only. -/
def arcC8last : Archive :=
  { obj := objC8, cd_start := 0, filelist := [ziC8b],
    multipart_threshold := 100, multipart_chunksize := 100 }

/-- C8 counterexample: with two entries named `a`, extraction returns the
first entry's content `[1]`; the last entry alone would yield `[2]`, and
the two differ — so duplicate resolution is first-write-wins, not
last-write-wins. -/
theorem C8_duplicate_counterexample :
    extract_file inflate0 arcC8 "a" = .ok [1] ∧
    extract_file inflate0 arcC8last "a" = .ok [2] ∧
    ([1] : Bytes) ≠ [2] :=
  ⟨rfl, rfl, by decide⟩

/-- Witness for the amended C8 at the concrete duplicate archive. -/
theorem C8_amended_first_match_wins_witness :
    [ziC8a].filter (fun z => z.filename == "a") ≠ [] ∧
    extract_file inflate0
        { obj := objC8, cd_start := 0, filelist := [ziC8a] ++ [ziC8b],
          multipart_threshold := 100, multipart_chunksize := 100 } "a" =
      extract_file inflate0
        { obj := objC8, cd_start := 0, filelist := [ziC8a],
          multipart_threshold := 100, multipart_chunksize := 100 } "a" :=
  ⟨by decide,
    C8_amended_first_match_wins inflate0 objC8 0 100 100 [ziC8a] [ziC8b] "a"
      (by decide)⟩
